import Mathlib

/-!
# Verification of the ScriptHaus playbook resolver and command extractor

This file is a shallow embedding of the name-resolution and command-extraction
core of the `scripthaus` repository (packages `pathutil`, `mdparser`,
`commanddef`), together with theorems settling the specification claims about
them.

Modelling conventions:

* Go strings are modelled as `List Char` (abbreviated `Str`); byte-level and
  rune-level iteration coincide on the ASCII data these functions handle.
* The `pathutil` resolver is embedded in its test-mode semantics: the source's
  `Resolver.statInfo` contains a complete pure interpretation of the stat
  probe driven by the `TestFiles` / `TestDirs` / `TestBadPermDirs` fields,
  and every other resolver function is parametric in that probe.  The
  non-test branch (a real `os.Stat`) is external I/O and out of scope.
* `os.Getwd`, the environment lookup in `GetScHomeDir`, and `user.Current()`
  are external effects; they are modelled as an error (for the two resolver
  accessors, only reachable when the corresponding override field is empty)
  or as an explicit `Option` parameter (for the user's home directory).
* Go errors are modelled by the inductive types `FsErr` (the two sentinel
  errors `fs.ErrNotExist` / `fs.ErrPermission` that the test-mode probe
  produces) and `PbErr` (the error values constructed by the resolver, one
  constructor per `fmt.Errorf` site, carrying the formatted data).
-/

abbrev Str := List Char

/-- Whitespace class of Go's RE2 `\s`: space, tab, newline, form feed,
carriage return. -/
def isWsGo (c : Char) : Bool :=
  c = ' ' ∨ c = '\t' ∨ c = '\n' ∨ c = '\x0c' ∨ c = '\r'

/-- ASCII part of `unicode.IsSpace`, used by `strings.TrimSpace`; adds
vertical tab to the RE2 class. -/
def isSpaceTrim (c : Char) : Bool :=
  isWsGo c ∨ c = '\x0b'

/-- `strings.TrimSpace` (on the ASCII data handled here). -/
def trimWS (s : Str) : Str :=
  ((s.dropWhile isSpaceTrim).reverse.dropWhile isSpaceTrim).reverse

/-- `strings.HasPrefix p s` test (arguments: pattern, string). -/
def strHasPre : Str → Str → Bool
  | [], _ => true
  | _ :: _, [] => false
  | c :: cs, x :: xs => x = c ∧ strHasPre cs xs

/-- `strings.Split s sep` for a one-character separator. -/
def splitOnChar (sep : Char) : Str → List Str
  | [] => [[]]
  | c :: rest =>
    if c = sep then [] :: splitOnChar sep rest
    else
      match splitOnChar sep rest with
      | [] => [[c]]
      | s :: ss => (c :: s) :: ss

/-- `strings.Join parts sep` for the one-character separator `'/'`. -/
def joinSlash : List Str → Str
  | [] => []
  | [s] => s
  | s :: rest => s ++ '/' :: joinSlash rest

/-- Cost of a segment list: total characters plus one per segment (so that a
split of `l` costs `l.length + 1`). -/
def lenSum (l : List Str) : Nat :=
  (l.map List.length).sum + l.length

theorem splitOnChar_ne_nil (sep : Char) (l : Str) : splitOnChar sep l ≠ [] := by
  cases l with
  | nil => simp [splitOnChar]
  | cons c rest =>
    simp only [splitOnChar]
    split
    · simp
    · cases h : splitOnChar sep rest <;> simp

theorem lenSum_cons (x : Str) (l : List Str) :
    lenSum (x :: l) = x.length + 1 + lenSum l := by
  simp only [lenSum, List.map_cons, List.sum_cons, List.length_cons]
  omega

theorem lenSum_splitOnChar (sep : Char) (l : Str) :
    lenSum (splitOnChar sep l) = l.length + 1 := by
  induction l with
  | nil => simp [splitOnChar, lenSum]
  | cons c rest ih =>
    simp only [splitOnChar]
    split
    · rw [lenSum_cons, ih]
      simp only [List.length_nil, List.length_cons]
      omega
    · cases h : splitOnChar sep rest with
      | nil => exact absurd h (splitOnChar_ne_nil sep rest)
      | cons s ss =>
        rw [h, lenSum_cons] at ih
        rw [lenSum_cons]
        simp only [List.length_cons]
        omega

theorem joinSlash_length (ps : List Str) (h : ps ≠ []) :
    (joinSlash ps).length + 1 = lenSum ps := by
  induction ps with
  | nil => exact absurd rfl h
  | cons s rest ih =>
    cases rest with
    | nil => simp [joinSlash, lenSum]
    | cons t ts =>
      have := ih (by simp)
      rw [lenSum_cons]
      simp only [joinSlash, List.length_append, List.length_cons] at *
      omega

/-- One stack step of Go's `path.Clean` (`cleanSegs` processes the
slash-separated segments with the documented rules: drop empty and `.`
segments, let `..` pop a previous segment, keep `..` at the start of a
relative path, drop `..` at the root of a rooted path). -/
def cleanSegs (rooted : Bool) (stack : List Str) : List Str → List Str
  | [] => stack.reverse
  | seg :: rest =>
    if seg = [] then cleanSegs rooted stack rest
    else if seg = ['.'] then cleanSegs rooted stack rest
    else if seg = ['.', '.'] then
      match stack with
      | [] => if rooted then cleanSegs rooted [] rest else cleanSegs rooted [['.', '.']] rest
      | t :: s =>
        if t = ['.', '.'] then cleanSegs rooted (seg :: stack) rest
        else cleanSegs rooted s rest
    else cleanSegs rooted (seg :: stack) rest

/-- Go `path.Clean` (`rooted := path[0] == '/'`, then the documented
segment rules, then reassembly; empty input cleans to `"."`). -/
def pathClean (p : Str) : Str :=
  if p = [] then ['.']
  else if p.head? = some '/' then
    '/' :: joinSlash (cleanSegs true [] (splitOnChar '/' p))
  else
    let out := cleanSegs false [] (splitOnChar '/' p)
    if out = [] then ['.'] else joinSlash out

theorem lenSum_nil : lenSum [] = 0 := by
  simp [lenSum]

theorem lenSum_reverse (l : List Str) : lenSum l.reverse = lenSum l := by
  simp only [lenSum, List.map_reverse, List.sum_reverse, List.length_reverse]

theorem cleanSegs_lenSum (segs : List Str) :
    ∀ stack, lenSum (cleanSegs true stack segs) ≤ lenSum stack + lenSum segs := by
  induction segs with
  | nil =>
    intro stack
    simp only [cleanSegs, lenSum_reverse, lenSum_nil]
    omega
  | cons seg rest ih =>
    intro stack
    rw [lenSum_cons]
    simp only [cleanSegs]
    split_ifs with h1 h2 h3
    · have := ih stack
      omega
    · have := ih stack
      omega
    · cases stack with
      | nil =>
        simp only [if_true]
        have := ih []
        rw [lenSum_nil] at *
        omega
      | cons t s =>
        dsimp only
        by_cases ht : t = ['.', '.']
        · rw [if_pos ht]
          have := ih (seg :: t :: s)
          rw [lenSum_cons, lenSum_cons] at this
          rw [lenSum_cons]
          omega
        · rw [if_neg ht]
          have := ih s
          rw [lenSum_cons]
          omega
    · have := ih (seg :: stack)
      rw [lenSum_cons] at this
      omega

theorem pathClean_rooted_length (p : Str) (hp : p.head? = some '/') :
    (pathClean p).length ≤ p.length := by
  obtain ⟨t, rfl⟩ : ∃ t, p = '/' :: t := by
    cases p with
    | nil => simp at hp
    | cons c rest =>
      simp only [List.head?_cons, Option.some.injEq] at hp
      exact ⟨rest, by rw [hp]⟩
  rw [pathClean, if_neg (by simp), if_pos (by simp)]
  have hsplit : splitOnChar '/' ('/' :: t) = [] :: splitOnChar '/' t := by
    simp [splitOnChar]
  rw [hsplit]
  rw [show cleanSegs true [] ([] :: splitOnChar '/' t) =
      cleanSegs true [] (splitOnChar '/' t) from by simp [cleanSegs]]
  have hbound := cleanSegs_lenSum (splitOnChar '/' t) []
  have hlen := lenSum_splitOnChar '/' t
  cases hout : cleanSegs true [] (splitOnChar '/' t) with
  | nil =>
    simp only [joinSlash, List.length_cons, List.length_nil]
    omega
  | cons o os =>
    have hjl := joinSlash_length (o :: os) (by simp)
    rw [hout] at hbound
    rw [lenSum_nil] at hbound
    simp only [List.length_cons]
    omega

/-- Slash test used by the path helpers. -/
def isSlash (c : Char) : Bool := c = '/'

/-- Go `path.Dir`: everything up to and including the final slash, cleaned
(`Clean("")` yields `"."` when there is no slash). -/
def pathDir (p : Str) : Str :=
  pathClean (List.rdropWhile (fun c => !isSlash c) p)

/-- Go `path.Base`: strip trailing slashes, then the part after the final
slash; `"."` for empty input, `"/"` if the name is all slashes. -/
def pathBase (p : Str) : Str :=
  if p = [] then ['.']
  else
    let q := List.rdropWhile isSlash p
    if q = [] then ['/']
    else List.rtakeWhile (fun c => !isSlash c) q

/-- Go `path.Join` on two elements: empty elements are dropped, the rest are
joined with a slash and cleaned; all-empty input gives `""`. -/
def pathJoin (a b : Str) : Str :=
  if a = [] ∧ b = [] then []
  else if a = [] then pathClean b
  else if b = [] then pathClean a
  else pathClean (a ++ '/' :: b)

/-- `pathutil.parentDir`: `""` for the root, relative or empty input;
otherwise strip one trailing slash and take `path.Dir`. -/
def parentDir (dirName : Str) : Str :=
  if dirName = [] ∨ dirName = ['/'] ∨ ¬(dirName.head? = some '/') then []
  else
    let d :=
      if dirName.length > 1 ∧ dirName.getLast? = some '/' then dirName.dropLast
      else dirName
    pathDir d

theorem head?_append_of_ne_nil (u t : Str) (h : u ≠ []) :
    (u ++ t).head? = u.head? := by
  cases u with
  | nil => exact absurd rfl h
  | cons c cs => simp
theorem head?_eq_of_isPre (u v : Str) (h : u <+: v) (hu : u ≠ []) :
    u.head? = v.head? := by
  obtain ⟨w, rfl⟩ := h
  rw [head?_append_of_ne_nil u w hu]

theorem rdropWhile_head_slash (v : Str) (hv : v.head? = some '/') :
    (List.rdropWhile (fun c => !isSlash c) v).head? = some '/' := by
  have hune : List.rdropWhile (fun c => !isSlash c) v ≠ [] := by
    rw [Ne, List.rdropWhile_eq_nil_iff]
    push_neg
    refine ⟨'/', ?_, by simp [isSlash]⟩
    cases v with
    | nil => simp at hv
    | cons c cs =>
      simp only [List.head?_cons, Option.some.injEq] at hv
      rw [hv]
      exact List.mem_cons_self _ _
  rw [head?_eq_of_isPre _ _ (List.rdropWhile_prefix _ _) hune, hv]

theorem parentDir_length (d : Str) :
    parentDir d = [] ∨ (parentDir d).length < d.length := by
  by_cases hg : d = [] ∨ d = ['/'] ∨ ¬(d.head? = some '/')
  · left
    rw [parentDir, if_pos hg]
  · right
    push_neg at hg
    obtain ⟨hne, hroot, hhead⟩ := hg
    obtain ⟨t, rfl⟩ : ∃ t, d = '/' :: t := by
      cases d with
      | nil => exact absurd rfl hne
      | cons c cs =>
        simp only [List.head?_cons, Option.some.injEq] at hhead
        exact ⟨cs, by rw [hhead]⟩
    have ht : t ≠ [] := by
      intro h
      exact hroot (by rw [h])
    rw [parentDir, if_neg (by push_neg; exact ⟨hne, hroot, hhead⟩)]
    by_cases hstrip : ('/' :: t).length > 1 ∧ ('/' :: t).getLast? = some '/'
    · rw [if_pos hstrip]
      have hdrop : ('/' :: t).dropLast = '/' :: t.dropLast := by
        cases t with
        | nil => exact absurd rfl ht
        | cons x xs => simp
      have hhead' : (('/' :: t).dropLast).head? = some '/' := by rw [hdrop]; rfl
      have huh := rdropWhile_head_slash _ hhead'
      have hul : (List.rdropWhile (fun c => !isSlash c) ('/' :: t).dropLast).length ≤
          ('/' :: t).dropLast.length :=
        (List.rdropWhile_prefix _ _).length_le
      have hcl := pathClean_rooted_length _ huh
      have hdl : ('/' :: t).dropLast.length = ('/' :: t).length - 1 := by simp
      rw [pathDir]
      simp only [List.length_cons] at *
      omega
    · rw [if_neg hstrip]
      have hlast : ('/' :: t).getLast? ≠ some '/' := by
        intro h
        refine hstrip ⟨?_, h⟩
        cases t with
        | nil => exact absurd rfl ht
        | cons x xs => simp
      have hrev : ∃ c cs, ('/' :: t).reverse = c :: cs ∧ (!isSlash c) = true := by
        cases hrv : ('/' :: t).reverse with
        | nil =>
          have := congrArg List.length hrv
          simp at this
        | cons c cs =>
          refine ⟨c, cs, rfl, ?_⟩
          have hgl : ('/' :: t).getLast? = some c := by
            rw [List.getLast?_eq_head?_reverse, hrv]
            rfl
          have hc : c ≠ '/' := by
            intro h
            exact hlast (by rw [hgl, h])
          simp [isSlash, hc]
      obtain ⟨c, cs, hrv, hc⟩ := hrev
      have hul : (List.rdropWhile (fun c => !isSlash c) ('/' :: t)).length <
          ('/' :: t).length := by
        rw [List.rdropWhile, hrv]
        simp only [List.dropWhile_cons]
        rw [if_pos (by exact hc)]
        have h1 : (List.dropWhile (fun c => !isSlash c) cs).length ≤ cs.length :=
          (List.dropWhile_suffix _).length_le
        have h2 : cs.length + 1 = ('/' :: t).length := by
          have := congrArg List.length hrv
          simp only [List.length_reverse, List.length_cons] at this
          simp only [List.length_cons]
          omega
        simp only [List.length_reverse, List.length_cons] at *
        omega
      have huh := rdropWhile_head_slash ('/' :: t) rfl
      have hcl := pathClean_rooted_length _ huh
      rw [pathDir]
      omega

/-! ## `pathutil`: the playbook name resolver, in its test-mode semantics -/

/-- `pathutil.DefaultScFile`. -/
def defaultScFile : Str := ("scripthaus.md").data

/-- The two `io/fs` sentinel errors that the test-mode stat probe produces. -/
inductive FsErr where
  | notExist
  | permission
deriving DecidableEq, Repr

/-- `pathutil.resolveStatInfo`. -/
structure ResolveStatInfo where
  IsDir : Bool
deriving DecidableEq, Repr

/-- `pathutil.Resolver`, restricted to its test-mode fields (`TestMode` is
always on in the embedding; the non-test branch performs real I/O). -/
structure Resolver where
  Cwd : Str := []
  ScHomeDir : Str := []
  TestFiles : List Str := []
  TestDirs : List Str := []
  TestBadPermDirs : List Str := []
deriving DecidableEq, Repr

/-- The error values built by the resolver: one constructor per
`fmt.Errorf` site (carrying the data that is formatted into the message),
plus `fsErr` for a raw `io/fs` error passed through unwrapped, and two
markers for the external `os.Getwd` / home-directory lookups. -/
inductive PbErr where
  | fsErr (e : FsErr)
  | cannotAccess (fileType fileName : Str) (cause : FsErr)
  | notFound (displayName resolved : Str)
  | permission (displayName resolved : Str) (cause : FsErr)
  | statError (displayName resolved : Str) (cause : FsErr)
  | isDirectory (displayName resolved : Str)
  | cannotResolveDir (playbookName : Str) (cause : PbErr)
  | noRoot (lastCurDir : Str)
  | noRootDepth (lastCurDir : Str) (depth : Nat)
  | invalidPrefixChar (c : Char)
  | emptyPrefixDir
  | atNamespace (name : Str)
  | invalidName (name : Str)
  | cannotGetCwd (cause : PbErr)
  | osGetwd
  | osHomeLookup
deriving DecidableEq, Repr

/-- `pathutil.inSlice`. -/
def inSlice (s : Str) : List Str → Bool
  | [] => false
  | v :: rest => if s = v then true else inSlice s rest

/-- `Resolver.statInfo`, test-mode branch: relative names are joined to
`Cwd`; `TestFiles` are files, `TestDirs` (after stripping one trailing
slash) are directories, `TestBadPermDirs` trigger a permission error for
the directory itself or for a direct child, everything else does not
exist. -/
def Resolver.statInfo (r : Resolver) (fileName : Str) : Except FsErr ResolveStatInfo :=
  let fileName := if ¬(fileName.head? = some '/') then pathJoin r.Cwd fileName else fileName
  if inSlice fileName r.TestFiles then .ok ⟨false⟩
  else
    let fileName :=
      if fileName.length > 1 ∧ fileName.getLast? = some '/' then fileName.dropLast
      else fileName
    if inSlice fileName r.TestDirs then .ok ⟨true⟩
    else
      let baseName := pathBase fileName
      if r.TestBadPermDirs.any
          (fun badDir => fileName = badDir ∨ pathJoin badDir baseName = fileName) then
        .error .permission
      else .error .notExist

/-- `Resolver.Getwd`: the `Cwd` override, else the external `os.Getwd`
(modelled as unavailable). -/
def Resolver.Getwd (r : Resolver) : Except PbErr Str :=
  if ¬(r.Cwd = []) then .ok r.Cwd else .error .osGetwd

/-- `Resolver.GetScHomeDir`: the `ScHomeDir` override, else the external
environment lookup (modelled as unavailable). -/
def Resolver.GetScHomeDir (r : Resolver) : Except PbErr Str :=
  if ¬(r.ScHomeDir = []) then .ok r.ScHomeDir else .error .osHomeLookup

/-- `pathutil.tryFindFile`: returns `(found, err)`.  Not-exist probes and
(when `ignorePermissionErr` is set) permission probes report "not found";
a directory is "not found"; any other probe error is passed through raw
with `found = true` (the inner `cannotAccess` branch of the source is dead
code, guarded by the same flag that is tested just above it). -/
def tryFindFile (r : Resolver) (fileName fileType : Str) (ignorePermissionErr : Bool) :
    Bool × Option PbErr :=
  let st := r.statInfo fileName
  let finfo := match st with | .ok fi => fi | .error _ => ⟨false⟩
  let errIsNotExist := match st with | .error .notExist => true | _ => false
  let errIsPermission := match st with | .error .permission => true | _ => false
  if errIsNotExist then (false, none)
  else if ignorePermissionErr ∧ errIsPermission then
    if ignorePermissionErr then (false, none)
    else (true, some (.cannotAccess fileType fileName .permission))
  else if finfo.IsDir then (false, none)
  else
    match st with
    | .error e => (true, some (.fsErr e))
    | .ok _ => (true, none)

/-- The `for curDir != ""` loop of `pathutil.findScRootDir`: probe for the
marker file in `curDir`, return `curDir` on a hit, walk to the parent
otherwise; `fs.ErrNotExist` once the parent of the root is reached. -/
def scRootLoop (r : Resolver) (curDir : Str) : Except PbErr Str :=
  if hcd : curDir = [] then .error (.fsErr .notExist)
  else
    let fileName := pathJoin curDir defaultScFile
    let res := tryFindFile r fileName ("playbook").data true
    match res.2 with
    | some e => .error e
    | none =>
      if res.1 then .ok curDir
      else scRootLoop r (parentDir curDir)
termination_by curDir.length
decreasing_by
  rcases parentDir_length curDir with h | h
  · rw [h]
    simp only [List.length_nil]
    exact List.length_pos.mpr hcd
  · exact h

/-- `pathutil.findScRootDir`: start at `curDir` (or its parent when the
current directory is not eligible) and run the marker walk. -/
def findScRootDir (r : Resolver) (curDir : Str) (allowCurrent : Bool) : Except PbErr Str :=
  scRootLoop r (if allowCurrent then curDir else parentDir curDir)

/-- `errors.Is(err, fs.ErrNotExist)` over the modelled error values
(following the `%w` wrapping structure of each `fmt.Errorf` site). -/
def isNotExistErr : PbErr → Bool
  | .fsErr .notExist => true
  | .cannotAccess _ _ c => c = .notExist
  | .permission _ _ c => c = .notExist
  | .statError _ _ c => c = .notExist
  | .cannotResolveDir _ c => isNotExistErr c
  | .cannotGetCwd c => isNotExistErr c
  | _ => false

/-- `Resolver.resolvePlaybookInDir`: substitute or append the default file
name, join, stat, retry once into a directory, then the error taxonomy. -/
def resolvePlaybookInDir (r : Resolver) (origName curDir playbookName : Str) :
    Except PbErr Str :=
  let playbookName :=
    if playbookName = [] then defaultScFile
    else if playbookName.getLast? = some '/' then playbookName ++ defaultScFile
    else playbookName
  let fullPath := pathJoin curDir playbookName
  let st0 := r.statInfo fullPath
  let retry : Str × Except FsErr ResolveStatInfo :=
    match st0 with
    | .ok fi =>
      if fi.IsDir then
        let fp := pathJoin fullPath defaultScFile
        (fp, r.statInfo fp)
      else (fullPath, st0)
    | .error _ => (fullPath, st0)
  let fullPath := retry.1
  let st := retry.2
  let displayName := if origName = [] then ("<default>").data else origName
  match st with
  | .error e =>
    if e = .notExist then .error (.notFound displayName fullPath)
    else if e = .permission then .error (.permission displayName fullPath e)
    else .error (.statError displayName fullPath e)
  | .ok fi =>
    if fi.IsDir then .error (.isDirectory displayName fullPath)
    else .ok fullPath

/-- The `for depth` loop of `Resolver.FindPrefixDir`, one iteration per
prefix character. -/
def findPrefixLoop (r : Resolver) (curDir : Str) (depth : Nat) : Str → Except PbErr Str
  | [] => .ok curDir
  | c :: rest =>
    if ¬(c = '.') then .error (.invalidPrefixChar c)
    else
      match findScRootDir r curDir (depth = 0) with
      | .error e =>
        if isNotExistErr e then
          if depth = 0 then .error (.noRoot curDir)
          else .error (.noRootDepth curDir (depth + 1))
        else .error e
      | .ok d => findPrefixLoop r d (depth + 1) rest

/-- `Resolver.FindPrefixDir`: `"^"` is the ScriptHaus home; a dot prefix
walks one marker boundary per dot (the re-defaulting of an empty prefix to
`"."` is kept from the source although the first guard makes it dead). -/
def FindPrefixDir (r : Resolver) (pre : Str) : Except PbErr Str :=
  if pre = [] then .error .emptyPrefixDir
  else if pre = ['^'] then r.GetScHomeDir
  else
    match r.Getwd with
    | .error e => .error e
    | .ok curDir =>
      let pre := if pre = [] then ['.'] else pre
      findPrefixLoop r curDir 0 pre

/-- The continuation class `(?:[a-zA-Z_]|$)` of `base.PlaybookPrefixRe`. -/
def isPrefTail : Str → Bool
  | [] => true
  | c :: _ => c.isAlpha ∨ c = '_'

/-- The `[.]*` alternative of `base.PlaybookPrefixRe`: the maximal run of
dots, accepted when followed by a letter, an underscore or the end (no
shorter run can match, since a shorter run is followed by a dot). -/
def dotAltMatch (s : Str) : Option Str :=
  let dots := s.takeWhile (fun c => c = '.')
  if isPrefTail (s.drop dots.length) then some dots else none

/-- Group 1 of a `base.PlaybookPrefixRe = ^(\^|[.]*)(?:[a-zA-Z_]|$)` match
(`none` when the regexp does not match): the `\^` alternative is preferred,
else the dot run. -/
def playbookPrefixMatch (s : Str) : Option Str :=
  match s with
  | '^' :: rest => if isPrefTail rest then some ['^'] else dotAltMatch s
  | _ => dotAltMatch s

/-- `pathutil.ResolvedPlaybook`. -/
structure ResolvedPlaybook where
  OrigName : Str := []
  CanonicalName : Str := []
  ResolvedFile : Str := []
  ProjectDir : Str := []
  ProjectName : Str := []
deriving DecidableEq, Repr

/-- `Resolver.ResolvePlaybook` (the `part_000` revision): stdin sentinel,
prefix grammar (with the literal-file check for an empty prefix), reserved
`@` namespace, literal relative/absolute paths, and the invalid-name
fallthrough. -/
def Resolver.ResolvePlaybook (r : Resolver) (playbookName : Str) :
    Except PbErr ResolvedPlaybook :=
  if playbookName = ("-").data then
    .ok { OrigName := ("-").data, CanonicalName := ("-").data, ResolvedFile := ("-").data }
  else
    match playbookPrefixMatch playbookName with
    | some pre =>
      if pre = [] then
        match r.Getwd with
        | .error e => .error (.cannotGetCwd e)
        | .ok curDir =>
          let fullPath := pathJoin curDir playbookName
          let res := tryFindFile r fullPath ("playbook").data false
          match res.2 with
          | some e => .error e
          | none =>
            if ¬ res.1 then .error (.notFound playbookName fullPath)
            else
              .ok { OrigName := playbookName, CanonicalName := fullPath,
                    ResolvedFile := fullPath }
      else
        match FindPrefixDir r pre with
        | .error e => .error (.cannotResolveDir playbookName e)
        | .ok dirName =>
          let noPrefixName := playbookName.drop pre.length
          match resolvePlaybookInDir r playbookName dirName noPrefixName with
          | .error e => .error e
          | .ok resolvedFile =>
            if pre = ['^'] then
              .ok { OrigName := playbookName, CanonicalName := playbookName,
                    ResolvedFile := resolvedFile }
            else
              .ok { OrigName := playbookName, CanonicalName := '.' :: noPrefixName,
                    ResolvedFile := resolvedFile, ProjectDir := dirName }
    | none =>
      if playbookName.head? = some '@' then .error (.atNamespace playbookName)
      else if strHasPre ("./").data playbookName ∨ playbookName.head? = some '/' ∨
          strHasPre ("../").data playbookName then
        match
          (if playbookName.head? = some '/' then (.ok playbookName : Except PbErr Str)
           else
             match r.Getwd with
             | .error e => .error (.cannotGetCwd e)
             | .ok curDir => .ok (pathClean (pathJoin curDir playbookName))) with
        | .error e => .error e
        | .ok fullPath =>
          let res :=
            if fullPath.getLast? = some '/' then
              resolvePlaybookInDir r playbookName fullPath []
            else
              resolvePlaybookInDir r playbookName (pathDir fullPath) (pathBase fullPath)
          match res with
          | .error e => .error e
          | .ok resolvedFile =>
            .ok { OrigName := playbookName, CanonicalName := resolvedFile,
                  ResolvedFile := resolvedFile }
      else .error (.invalidName playbookName)

/-- Decidable equality for `Except`, used to evaluate the resolver's results
on concrete inputs. -/
instance {e a : Type} [DecidableEq e] [DecidableEq a] : DecidableEq (Except e a) := fun x y =>
  match x, y with
  | .ok v, .ok w =>
    if h : v = w then isTrue (by rw [h]) else isFalse (fun hh => h (Except.ok.inj hh))
  | .error v, .error w =>
    if h : v = w then isTrue (by rw [h]) else isFalse (fun hh => h (Except.error.inj hh))
  | .ok _, .error _ => isFalse (fun hh => Except.noConfusion hh)
  | .error _, .ok _ => isFalse (fun hh => Except.noConfusion hh)

/-! ## `commanddef` and `mdparser`

The repository file `commanddef.go` contains two revisions of the package:
the earlier one processes `require` directives out of the script text into
`RequireEnvVars`; the later one processes `cd` / `nolog` out of the raw
directive list into `ChangeDir` / `NoLog`.  The `CommandDef` record below
is the union of the two revisions' fields, and each revision's directive
processor is embedded separately (`processDirectivesV1` / `V2`).  The
positional and display fields `HelpText` / `RawCodeText` / `StartIndex` /
`StartLineNo` (byte offsets into the Markdown source) are omitted; no
claim concerns them, and in `ParseCommands` they are the only consumers of
the `breakIdx` help-text state, which is therefore omitted as well. -/

/-- `commanddef.RawDirective`. -/
structure RawDirective where
  «Type» : Str
  Data : Str
  LineNo : Nat
deriving DecidableEq, Repr

/-- `commanddef.CommandDef` (union of the two revisions' fields, see
above). -/
structure CommandDef where
  Playbook : ResolvedPlaybook := {}
  Name : Str := []
  Lang : Str := []
  ScriptText : Str := []
  ShortText : Str := []
  Info : List (Str × Str) := []
  RawDirectives : List RawDirective := []
  RequireEnvVars : List Str := []
  DirectivesProcessed : Bool := false
  ChangeDir : Str := []
  NoLog : Bool := false
  Warnings : List Str := []
deriving DecidableEq, Repr

/-- `ResolvedPlaybook.PlaybookDir`. -/
def ResolvedPlaybook.PlaybookDir (pb : ResolvedPlaybook) : Str :=
  if pb.CanonicalName = ("-").data then [] else pathDir pb.ResolvedFile

/-- `CommandDef.FullScriptName`.  The source's special case for a canonical
name of `"^"` or `"."` computes a prefix-concatenated string with
`fmt.Sprintf` but discards it (the `return` is missing), so the function
falls through to the `"::"` form; the discarded value is kept here as a
dead binding. -/
def CommandDef.FullScriptName (cdef : CommandDef) : Str :=
  let _discarded :=
    if cdef.Playbook.CanonicalName = ['^'] ∨ cdef.Playbook.CanonicalName = ['.'] then
      cdef.Playbook.CanonicalName ++ cdef.Name
    else []
  cdef.Playbook.CanonicalName ++ ("::").data ++ cdef.Name

/-- `Nat` rendering for the `%d` verbs of the warning messages. -/
def natStr (n : Nat) : Str := (Nat.repr n).data

/-- The `" (line %d)"` suffix shared by several warning messages. -/
def lineSuffix (lineNo : Nat) : Str :=
  (" (line ").data ++ natStr lineNo ++ (")").data

def malformedDirectiveMsg (dirStr : Str) (lineNo : Nat) : Str :=
  ("malformed @scripthaus directive '").data ++ dirStr ++ ("'").data ++ lineSuffix lineNo

def requireInvalidMsg (envName : Str) (lineNo : Nat) : Str :=
  ("@scripthaus 'require' directive, invalid env var name '").data ++ envName ++
    ("'").data ++ lineSuffix lineNo

def invalidDirectiveMsg (dirType : Str) (lineNo : Nat) : Str :=
  ("invalid @scripthaus directive '").data ++ dirType ++ ("'").data ++ lineSuffix lineNo

def cdMustBeAbsMsg (dirName : Str) : Str :=
  ("'cd' directive must be absolute, got '").data ++ dirName ++ ("' (ignoring)").data

def invalidDirectiveMsgV2 (dirType : Str) : Str :=
  ("invalid directive '").data ++ dirType ++ ("' (ignoring)").data

def noCommandDirectiveMsg (lineNo : Nat) : Str :=
  ("code block has scripthaus directives, but no 'command' directive").data ++
    lineSuffix lineNo

def invalidLanguageMsg (infoText lang : Str) (lineNo : Nat) : Str :=
  ("scripthaus code block found info='").data ++ infoText ++
    ("' with invalid language '").data ++ lang ++ ("'").data ++ lineSuffix lineNo

/-- `commanddef.DirectiveRe = ^\s*(\S+)(?:\s+(.*))?$` applied with
`FindStringSubmatch`: skip leading whitespace, a nonempty maximal non-space
run is group 1, then the rest after the following whitespace run is group 2
(`""` when absent); the trailing `$` makes the match fail when a newline
survives into group 2, since `.` cannot cross it. -/
def directiveReParse (dirStr : Str) : Option (Str × Str) :=
  let s1 := dirStr.dropWhile isWsGo
  let typ := s1.takeWhile (fun c => !isWsGo c)
  if typ = [] then none
  else
    let rest := s1.dropWhile (fun c => !isWsGo c)
    if rest = [] then some (typ, [])
    else
      let m2 := rest.dropWhile isWsGo
      if m2.contains '\n' then none
      else some (typ, m2)

/-- `commanddef.EnvVarRe = ^[a-zA-Z_][a-zA-Z0-9_]*$`. -/
def envVarReMatch (s : Str) : Bool :=
  match s with
  | [] => false
  | c :: rest => (c.isAlpha ∨ c = '_') ∧ rest.all (fun c => c.isAlpha ∨ c.isDigit ∨ c = '_')

/-- `CommandDef.processDirective` (first revision): parse the directive
with `DirectiveRe`; a `require VAR` with a valid identifier is appended to
`RequireEnvVars`, anything else degrades to a warning; the error result is
always `nil`. -/
def processDirective (cdef : CommandDef) (dirStr : Str) (lineNo : Nat) :
    CommandDef × Option Str :=
  match directiveReParse dirStr with
  | none =>
    ({ cdef with Warnings := cdef.Warnings ++ [malformedDirectiveMsg dirStr lineNo] }, none)
  | some (dirType, dirArgs) =>
    if dirType = ("require").data then
      let envName := trimWS dirArgs
      if ¬ envVarReMatch envName then
        ({ cdef with Warnings := cdef.Warnings ++ [requireInvalidMsg envName lineNo] }, none)
      else
        ({ cdef with RequireEnvVars := cdef.RequireEnvVars ++ [envName] }, none)
    else
      ({ cdef with Warnings := cdef.Warnings ++ [invalidDirectiveMsg dirType lineNo] }, none)

/-- The `for idx, line` loop of the first revision's `processDirectives`:
lines starting with exactly `"# @scripthaus "` are handed (after the
14-character prefix) to `processDirective`, aborting on a non-nil error. -/
def v1Loop (cdef : CommandDef) (idx : Nat) : List Str → CommandDef × Option Str
  | [] => (cdef, none)
  | line :: rest =>
    if strHasPre ("# @scripthaus ").data line then
      let r := processDirective cdef (line.drop 14) (idx + 1)
      match r.2 with
      | some e => (r.1, some e)
      | none => v1Loop r.1 (idx + 1) rest
    else v1Loop cdef (idx + 1) rest

/-- `CommandDef.processDirectives` (first revision): no-op once
`DirectivesProcessed` is set or for a non-`sh`/`bash` language; otherwise
scan the script text line by line. -/
def processDirectivesV1 (cdef : CommandDef) : CommandDef × Option Str :=
  if cdef.DirectivesProcessed then (cdef, none)
  else
    let cdef := { cdef with DirectivesProcessed := true }
    if ¬(cdef.Lang = ("sh").data) ∧ ¬(cdef.Lang = ("bash").data) then (cdef, none)
    else v1Loop cdef 0 (splitOnChar '\n' cdef.ScriptText)

/-- One directive step of the second revision's `processDirectives`
(`command` skipped, `cd` with its four target forms, `nolog`, warning
otherwise).  `homeDir` models the external `user.Current()` lookup of the
`~` branch: `none` for a lookup error, otherwise the home directory. -/
def v2Dir (homeDir : Option Str) (cdef : CommandDef) (dir : RawDirective) : CommandDef :=
  if dir.«Type» = ("command").data then cdef
  else if dir.«Type» = ("cd").data then
    let dirName := trimWS dir.Data
    if dirName = (":playbook").data then
      { cdef with ChangeDir := cdef.Playbook.PlaybookDir }
    else if dirName = (":current").data then { cdef with ChangeDir := [] }
    else if dirName.head? = some '~' then
      match homeDir with
      | some h => if ¬(h = []) then { cdef with ChangeDir := pathJoin h (dirName.drop 1) } else cdef
      | none => cdef
    else if ¬(dirName.head? = some '/') then
      { cdef with Warnings := cdef.Warnings ++ [cdMustBeAbsMsg dirName] }
    else { cdef with ChangeDir := dirName }
  else if dir.«Type» = ("nolog").data then { cdef with NoLog := true }
  else { cdef with Warnings := cdef.Warnings ++ [invalidDirectiveMsgV2 dir.«Type»] }

/-- `CommandDef.processDirectives` (second revision): no-op once
`DirectivesProcessed` is set; otherwise fold the raw directive list. -/
def processDirectivesV2 (homeDir : Option Str) (cdef : CommandDef) :
    CommandDef × Option Str :=
  if cdef.DirectivesProcessed then (cdef, none)
  else
    let cdef := { cdef with DirectivesProcessed := true }
    (cdef.RawDirectives.foldl (v2Dir homeDir) cdef, none)

/-- The `(?:#|//)` alternation of `mdparser.directiveRe`, anchored at the
start of the line. -/
def stripComment (l : Str) : Option Str :=
  match l with
  | [] => none
  | c :: rest =>
    if c = '#' then some rest
    else if c = '/' then
      match rest with
      | [] => none
      | c2 :: rest2 => if c2 = '/' then some rest2 else none
    else none

/-- A `\s+` atom followed by a non-whitespace literal: require a leading
whitespace character, then drop the whole run (no shorter run can succeed,
since it would leave a whitespace character for the next atom). -/
def reqWS (l : Str) : Option Str :=
  match l with
  | c :: rest => if isWsGo c then some ((c :: rest).dropWhile isWsGo) else none
  | [] => none

/-- Literal-string atom. -/
def stripLit : Str → Str → Option Str
  | [], l => some l
  | _ :: _, [] => none
  | c :: cs, x :: xs => if x = c then stripLit cs xs else none

/-- `mdparser.directiveRe = ^(?:#|//)\s+@scripthaus\s+(\S+)(?:\s+(.*))?`
applied to one line with `FindStringSubmatch`: group 1 is the maximal
non-whitespace run after `@scripthaus`, group 2 the rest of the line after
the following whitespace run, truncated at a newline (`.` does not match
one) and `""` when the optional group is absent. -/
def matchDirectiveLine (l : Str) : Option (Str × Str) :=
  (stripComment l).bind fun r1 =>
  (reqWS r1).bind fun r2 =>
  (stripLit ("@scripthaus").data r2).bind fun r3 =>
  (reqWS r3).bind fun r4 =>
    let typ := r4.takeWhile (fun c => !isWsGo c)
    if typ = [] then none
    else
      let rest := r4.dropWhile (fun c => !isWsGo c)
      some (typ, (rest.dropWhile isWsGo).takeWhile (fun c => !(c = '\n')))

/-- The indexed loop of `mdparser.ExtractRawDirectives`. -/
def extractLoop (idx : Nat) : List Str → List RawDirective
  | [] => []
  | line :: rest =>
    match matchDirectiveLine line with
    | none => extractLoop (idx + 1) rest
    | some (t, d) => ⟨t, trimWS d, idx + 1⟩ :: extractLoop (idx + 1) rest

/-- `mdparser.ExtractRawDirectives`: split on newlines, match each line
against `directiveRe`, record 1-indexed line numbers and trimmed data. -/
def ExtractRawDirectives (codeText : Str) : List RawDirective :=
  extractLoop 0 (splitOnChar '\n' codeText)

/-- `mdparser.hasDashPrefix = ^\s+-\s+(.*)` applied to the remainder after
the command name: whitespace, a dash, whitespace, then the description. -/
def hasDashDesc (s : Str) : Option Str :=
  (reqWS s).bind fun r1 =>
  match r1 with
  | '-' :: r2 => (reqWS r2).map (fun r3 => r3.takeWhile (fun c => !(c = '\n')))
  | _ => none

/-- `mdparser.GetCommandDirective`: first directive of type `command`;
its data is split at the first space into the name and (via
`hasDashPrefix`) the short description. -/
def GetCommandDirective : List RawDirective → Str × Str
  | [] => ([], [])
  | dir :: rest =>
    if ¬(dir.«Type» = ("command").data) then GetCommandDirective rest
    else
      let nameRun := dir.Data.takeWhile (fun c => !(c = ' '))
      if nameRun.length = dir.Data.length then (dir.Data, [])
      else
        let commandName := nameRun
        let restStr := dir.Data.drop nameRun.length
        match hasDashDesc restStr with
        | some d => (commandName, d)
        | none => (commandName, [])

/-- `strings.SplitN(field, "=", 2)`: key, value and whether a `=` was
present. -/
def splitEq2 (f : Str) : Str × Str × Bool :=
  let k := f.takeWhile (fun c => !(c = '='))
  if k.length = f.length then (f, [], false) else (k, f.drop (k.length + 1), true)

/-- Map assignment on the association-list model of the Go map. -/
def assocSet (m : List (Str × Str)) (k v : Str) : List (Str × Str) :=
  match m with
  | [] => [(k, v)]
  | (k0, v0) :: rest => if k0 = k then (k, v) :: rest else (k0, v0) :: assocSet rest k v

/-- The field loop of `mdparser.parseInfo`. -/
def parseInfoLoop (fields : List (Str × Str)) : List Str → List (Str × Str)
  | [] => fields
  | f :: rest =>
    let sp := splitEq2 f
    if sp.2.2 then parseInfoLoop (assocSet fields sp.1 sp.2.1) rest
    else parseInfoLoop (assocSet fields f (("1").data)) rest

/-- `mdparser.parseInfo`: split the info line on single spaces; the first
field is the language, the rest become `key=value` entries. -/
def parseInfo (info : Str) : Str × List (Str × Str) :=
  let split := splitOnChar ' ' info
  (split.headD [], parseInfoLoop [] (split.drop 1))

/-- Modelled from the spec: `base.IsValidScriptType`, the fixed language
allow-list consulted by `ParseCommands`.  The function itself is not among
the source files (only its callers are); the spec fixes the list as
`sh/bash/zsh/tcsh/ksh/fish/python/python2/python3/js/node`. -/
def IsValidScriptType (scriptType : Str) : Bool :=
  scriptType = ("sh").data ∨ scriptType = ("bash").data ∨
  scriptType = ("zsh").data ∨ scriptType = ("tcsh").data ∨
  scriptType = ("ksh").data ∨ scriptType = ("fish").data ∨
  scriptType = ("python").data ∨ scriptType = ("python2").data ∨
  scriptType = ("python3").data ∨ scriptType = ("js").data ∨
  scriptType = ("node").data

/-- A fenced code block as handed over by the external Markdown engine:
the info line (absent when the fence has none), the inner text, and the
1-indexed line number of the info line. -/
structure FencedBlock where
  info : Option Str := none
  text : Str := []
  lineNo : Nat := 0
deriving DecidableEq, Repr

/-- A top-level node of the parsed Markdown document, as classified by the
`ParseCommands` loop. -/
inductive MdNode where
  | thematicBreak
  | heading (level : Nat)
  | fenced (b : FencedBlock)
  | otherBlock
deriving DecidableEq, Repr

/-- The fenced-code-block case of the `ParseCommands` loop: skip fences
without an info line; a fence whose directives yield no command name is
not a command (with the orphan-directives warning when directives were
present); an invalid language is a warning and no command; otherwise one
`CommandDef`. -/
def parseNode (playbook : ResolvedPlaybook) (b : FencedBlock) :
    List CommandDef × List Str :=
  match b.info with
  | none => ([], [])
  | some infoText =>
    let rawDirs := ExtractRawDirectives b.text
    let nd := GetCommandDirective rawDirs
    if nd.1 = [] then
      if ¬(rawDirs = []) then ([], [noCommandDirectiveMsg b.lineNo]) else ([], [])
    else
      let pi := parseInfo infoText
      if ¬ IsValidScriptType pi.1 then ([], [invalidLanguageMsg infoText pi.1 b.lineNo])
      else
        ([{ Playbook := playbook, Name := nd.1, ShortText := nd.2, Lang := pi.1,
            ScriptText := b.text, Info := pi.2, RawDirectives := rawDirs }], [])

/-- `mdparser.ParseCommands` over the top-level node sequence: thematic
breaks, headings and other blocks only drive the (omitted) help-text state;
each fenced block contributes its `parseNode` commands and warnings, in
document order. -/
def ParseCommands (playbook : ResolvedPlaybook) : List MdNode → List CommandDef × List Str
  | [] => ([], [])
  | node :: rest =>
    let r :=
      match node with
      | .fenced b => parseNode playbook b
      | _ => ([], [])
    let r2 := ParseCommands playbook rest
    (r.1 ++ r2.1, r.2 ++ r2.2)

example : pathClean ("/a//b/../c").data = ("/a/c").data := by decide
example : pathClean ("a/../../b").data = ("../b").data := by decide
example : pathClean ("./").data = (".").data := by decide
example : pathJoin ("/w").data ("foo.md").data = ("/w/foo.md").data := by decide
example : pathDir ("/a/b").data = ("/a").data := by decide
example : pathDir ("abc").data = (".").data := by decide
example : pathBase ("/a/b/").data = ("b").data := by decide
example : pathBase ("///").data = ("/").data := by decide
example : parentDir ("/a/b").data = ("/a").data := by decide
example : parentDir ("/").data = [] := by decide
example : ExtractRawDirectives ("# @scripthaus command foo - does a thing\necho hi").data =
    [⟨("command").data, ("foo - does a thing").data, 1⟩] := by decide
example : GetCommandDirective
    (ExtractRawDirectives ("# @scripthaus command foo - does a thing").data) =
    (("foo").data, ("does a thing").data) := by decide
example : Resolver.ResolvePlaybook
    { Cwd := ("/w").data, TestFiles := [("/w/b.md").data] } (("b.md").data) =
    .ok { OrigName := ("b.md").data, CanonicalName := ("/w/b.md").data,
          ResolvedFile := ("/w/b.md").data } := by decide
example : resolvePlaybookInDir { TestFiles := [("/h/sc/scripthaus.md").data] }
    [] (("/h/sc").data) [] = .ok (("/h/sc/scripthaus.md").data) := by decide
example : matchDirectiveLine (("  # @scripthaus command foo").data) = none := by decide
example : playbookPrefixMatch (("..foo").data) = some ("..").data := by decide
example : playbookPrefixMatch (("foo.md").data) = some [] := by decide
example : playbookPrefixMatch (("^foo").data) = some ['^'] := by decide
example : playbookPrefixMatch (("9foo").data) = none := by decide

/-! ## Supporting lemmas for the resolver claims -/

theorem tryFindFile_ignore_noerr (r : Resolver) (f ft : Str) :
    (tryFindFile r f ft true).2 = none := by
  rw [tryFindFile]
  cases h : r.statInfo f with
  | ok fi =>
    simp only [h]
    by_cases hd : fi.IsDir <;> simp [hd]
  | error e =>
    cases e <;> simp [h]

theorem tryFindFile_perm_ignore (r : Resolver) (f ft : Str)
    (h : r.statInfo f = .error .permission) :
    tryFindFile r f ft true = (false, none) := by
  rw [tryFindFile, h]
  simp

theorem tryFindFile_notExist (r : Resolver) (f ft : Str) (ig : Bool)
    (h : r.statInfo f = .error .notExist) :
    tryFindFile r f ft ig = (false, none) := by
  rw [tryFindFile, h]
  simp

/-- One unfolding of the marker-walk loop, with the always-`nil` error of
the ignore-permission probe already discharged. -/
theorem scRootLoop_eq (r : Resolver) (d : Str) :
    scRootLoop r d =
      if d = [] then .error (.fsErr .notExist)
      else if (tryFindFile r (pathJoin d defaultScFile) ("playbook").data true).1 then .ok d
      else scRootLoop r (parentDir d) := by
  by_cases hd : d = []
  · rw [scRootLoop, dif_pos hd, if_pos hd]
  · rw [scRootLoop, dif_neg hd, if_neg hd]
    simp only [tryFindFile_ignore_noerr r (pathJoin d defaultScFile) (("playbook").data)]

theorem scRootLoop_error (r : Resolver) (d : Str) :
    ∀ e, scRootLoop r d = .error e → e = .fsErr .notExist := by
  have H : ∀ n d, List.length d ≤ n → ∀ e,
      scRootLoop r d = .error e → e = .fsErr .notExist := by
    intro n
    induction n with
    | zero =>
      intro d hd e h
      have hdn : d = [] := by
        cases d with
        | nil => rfl
        | cons c cs => simp at hd
      rw [scRootLoop_eq, if_pos hdn] at h
      exact (Except.error.inj h).symm
    | succ n ih =>
      intro d hd e h
      by_cases hdn : d = []
      · rw [scRootLoop_eq, if_pos hdn] at h
        exact (Except.error.inj h).symm
      · rw [scRootLoop_eq, if_neg hdn] at h
        by_cases hf : (tryFindFile r (pathJoin d defaultScFile) ("playbook").data true).1
        · rw [if_pos hf] at h
          exact absurd h (by simp)
        · rw [if_neg hf] at h
          refine ih (parentDir d) ?_ e h
          rcases parentDir_length d with hp | hp
          · rw [hp]
            simp
          · have : 0 < d.length := List.length_pos.mpr hdn
            omega
  exact H d.length d le_rfl

/-! ## Claim C6 -/

/-- Claim C6: during the upward walk of `findScRootDir`, a permission
error from the stat probe is not fatal — the probe reports exactly what it
reports for an absent marker and the walk continues with the parent
directory; `findScRootDir` itself can only fail with the not-exist error,
and a permission error surfaces only from `resolvePlaybookInDir`, where it
is the dedicated permission constructor (distinct from not-found) wrapping
the underlying probe error. -/
theorem C6_theorem :
    (∀ (r : Resolver) (f ft : Str), r.statInfo f = .error .permission →
        tryFindFile r f ft true = (false, none)) ∧
    (∀ (r : Resolver) (f ft : Str), r.statInfo f = .error .notExist →
        tryFindFile r f ft true = (false, none)) ∧
    (∀ (r : Resolver) (d : Str), ¬(d = []) →
        r.statInfo (pathJoin d defaultScFile) = .error .permission →
        scRootLoop r d = scRootLoop r (parentDir d)) ∧
    (∀ (r : Resolver) (d : Str) (ac : Bool) (e : PbErr),
        findScRootDir r d ac = .error e → e = .fsErr .notExist) ∧
    (∀ (r : Resolver) (o d n pbn fp : Str),
        pbn = (if n = [] then defaultScFile
               else if n.getLast? = some '/' then n ++ defaultScFile else n) →
        fp = pathJoin d pbn →
        r.statInfo fp = .error .permission →
        resolvePlaybookInDir r o d n =
          .error (.permission (if o = [] then ("<default>").data else o) fp .permission)) := by
  refine ⟨fun r f ft h => tryFindFile_perm_ignore r f ft h,
          fun r f ft h => tryFindFile_notExist r f ft true h, ?_, ?_, ?_⟩
  · intro r d hd h
    rw [scRootLoop_eq, if_neg hd,
      tryFindFile_perm_ignore r (pathJoin d defaultScFile) (("playbook").data) h]
    rfl
  · intro r d ac e h
    exact scRootLoop_error r _ e h
  · intro r o d n pbn fp hpbn hfp h
    subst hpbn
    subst hfp
    rw [resolvePlaybookInDir]
    simp only [h]
    rfl

def rC6 : Resolver := { Cwd := ("/cw").data, TestBadPermDirs := [("/p/bad").data] }

theorem C6_witness :
    scRootLoop rC6 ("/p/bad").data = scRootLoop rC6 (parentDir ("/p/bad").data) ∧
    resolvePlaybookInDir rC6 ("x").data ("/p/bad").data [] =
      .error (.permission ("x").data ("/p/bad/scripthaus.md").data .permission) := by
  constructor
  · exact C6_theorem.2.2.1 rC6 (("/p/bad").data) (by decide) (by decide)
  · exact C6_theorem.2.2.2.2 rC6 (("x").data) (("/p/bad").data) [] _ _ rfl rfl (by decide)

/-! ## Claim C7 -/

/-- Claim C7: `resolvePlaybookInDir` substitutes the default file name for
an empty playbook name and appends it after a trailing slash; a stat that
finds a directory is retried exactly once with the default name appended
inside it; on stat failure, not-exist becomes the "playbook not found"
error carrying both the user-given (display) name and the resolved path,
permission becomes the distinct permission error wrapping the probe error,
and a path that is still a directory after the retry is an error too (the
generic stat-error branch of the source matches the remaining error kinds,
of which the test-mode probe produces none). -/
theorem C7_theorem :
    (∀ (r : Resolver) (o d : Str),
        resolvePlaybookInDir r o d [] = resolvePlaybookInDir r o d defaultScFile) ∧
    (∀ (r : Resolver) (o d n : Str), ¬(n = []) → n.getLast? = some '/' →
        resolvePlaybookInDir r o d n = resolvePlaybookInDir r o d (n ++ defaultScFile)) ∧
    (∀ (r : Resolver) (o d n pbn fp : Str),
        pbn = (if n = [] then defaultScFile
               else if n.getLast? = some '/' then n ++ defaultScFile else n) →
        fp = pathJoin d pbn →
        (r.statInfo fp = .error .notExist →
          resolvePlaybookInDir r o d n =
            .error (.notFound (if o = [] then ("<default>").data else o) fp)) ∧
        (r.statInfo fp = .error .permission →
          resolvePlaybookInDir r o d n =
            .error (.permission (if o = [] then ("<default>").data else o) fp .permission)) ∧
        (r.statInfo fp = .ok ⟨false⟩ →
          resolvePlaybookInDir r o d n = .ok fp)) ∧
    (∀ (r : Resolver) (o d n pbn fp fp2 : Str),
        pbn = (if n = [] then defaultScFile
               else if n.getLast? = some '/' then n ++ defaultScFile else n) →
        fp = pathJoin d pbn →
        r.statInfo fp = .ok ⟨true⟩ →
        fp2 = pathJoin fp defaultScFile →
        (r.statInfo fp2 = .error .notExist →
          resolvePlaybookInDir r o d n =
            .error (.notFound (if o = [] then ("<default>").data else o) fp2)) ∧
        (r.statInfo fp2 = .error .permission →
          resolvePlaybookInDir r o d n =
            .error (.permission (if o = [] then ("<default>").data else o) fp2 .permission)) ∧
        (r.statInfo fp2 = .ok ⟨true⟩ →
          resolvePlaybookInDir r o d n =
            .error (.isDirectory (if o = [] then ("<default>").data else o) fp2)) ∧
        (r.statInfo fp2 = .ok ⟨false⟩ →
          resolvePlaybookInDir r o d n = .ok fp2)) := by
  refine ⟨?_, ?_, ?_, ?_⟩
  · intro r o d
    rfl
  · intro r o d n hne hlast
    have hdne : ¬(n ++ defaultScFile = []) := by simp [defaultScFile]
    have hdlast : (n ++ defaultScFile).getLast? = some 'd' := by
      rw [List.getLast?_append_of_ne_nil _ (by simp [defaultScFile])]
      rfl
    simp only [resolvePlaybookInDir, if_neg hne, if_pos hlast, if_neg hdne, hdlast]
    simp
  · intro r o d n pbn fp hpbn hfp
    subst hpbn
    subst hfp
    refine ⟨fun h => ?_, fun h => ?_, fun h => ?_⟩ <;>
      · rw [resolvePlaybookInDir]
        simp only [h]
        rfl
  · intro r o d n pbn fp fp2 hpbn hfp h0 hfp2
    subst hpbn
    subst hfp
    subst hfp2
    refine ⟨fun h => ?_, fun h => ?_, fun h => ?_, fun h => ?_⟩ <;>
      · rw [resolvePlaybookInDir]
        simp only [h0, h]
        rfl

def rC7 : Resolver :=
  { TestDirs := [("/q/pb").data, ("/q/pb/scripthaus.md").data] }

theorem C7_witness :
    resolvePlaybookInDir rC7 ("pb").data ("/q").data ("pb").data =
      .error (.isDirectory ("pb").data ("/q/pb/scripthaus.md").data) ∧
    resolvePlaybookInDir { } [] ("/q").data [] =
      .error (.notFound ("<default>").data ("/q/scripthaus.md").data) := by
  constructor
  · exact (C7_theorem.2.2.2 rC7 (("pb").data) (("/q").data) (("pb").data) (("pb").data)
      (("/q/pb").data) (("/q/pb/scripthaus.md").data) (by decide) (by decide)
      (by decide) (by decide)).2.2.1 (by decide)
  · exact ((C7_theorem.2.2.1 { } [] (("/q").data) [] defaultScFile
      (("/q/scripthaus.md").data) (by decide) (by decide)).1) (by decide)

/-! ## Claim C1 -/

def rC1 : Resolver :=
  { Cwd := ("/home/u/proj/sub").data,
    TestFiles := [("/home/u/proj/scripthaus.md").data, ("/home/u/proj/foo.md").data] }

/-- Claim C1, counterexample: with a project root at `/home/u/proj`
(marker present) containing `foo.md`, and a working directory
`/home/u/proj/sub` without a literal `foo.md`, `ResolvePlaybook "foo.md"`
fails immediately with "playbook not found" — although the depth-1 walk
finds the root and resolving the name there succeeds, no such fallback is
attempted. -/
theorem C1_counterexample :
    rC1.ResolvePlaybook ("foo.md").data =
      .error (.notFound ("foo.md").data ("/home/u/proj/sub/foo.md").data) ∧
    findScRootDir rC1 ("/home/u/proj/sub").data true = .ok ("/home/u/proj").data ∧
    resolvePlaybookInDir rC1 ("foo.md").data ("/home/u/proj").data ("foo.md").data =
      .ok ("/home/u/proj/foo.md").data := by
  refine ⟨by decide, ?_, by decide⟩
  have h1 : scRootLoop rC1 ("/home/u/proj/sub").data =
      scRootLoop rC1 ("/home/u/proj").data := by
    rw [scRootLoop_eq, if_neg (by decide), if_neg (by decide)]
    have hp : parentDir ("/home/u/proj/sub").data = ("/home/u/proj").data := by decide
    rw [hp]
  have h2 : scRootLoop rC1 ("/home/u/proj").data = .ok ("/home/u/proj").data := by
    rw [scRootLoop_eq, if_neg (by decide), if_pos (by decide)]
  rw [findScRootDir, if_pos rfl]
  exact h1.trans h2

/-- Claim C1, amended: for a bare playbook name with an empty prefix,
`ResolvePlaybook` checks for a file with that exact name relative to the
working directory and returns it (as both canonical name and resolved
file) when the probe finds it; when the probe reports it absent,
resolution fails immediately with "playbook not found" for the joined
path — there is no project-relative fallback. -/
theorem C1_theorem (r : Resolver) (name : Str)
    (hpre : playbookPrefixMatch name = some []) (hcwd : ¬(r.Cwd = [])) :
    (tryFindFile r (pathJoin r.Cwd name) ("playbook").data false = (true, none) →
      r.ResolvePlaybook name =
        .ok { OrigName := name, CanonicalName := pathJoin r.Cwd name,
              ResolvedFile := pathJoin r.Cwd name }) ∧
    (tryFindFile r (pathJoin r.Cwd name) ("playbook").data false = (false, none) →
      r.ResolvePlaybook name = .error (.notFound name (pathJoin r.Cwd name))) := by
  have hdash : ¬(name = ("-").data) := by
    intro h
    rw [h] at hpre
    exact absurd hpre (by decide)
  have hgetwd : r.Getwd = .ok r.Cwd := by
    rw [Resolver.Getwd, if_pos hcwd]
  constructor <;> intro h <;>
    · rw [Resolver.ResolvePlaybook, if_neg hdash, hpre]
      simp only [hgetwd, h]
      rfl

def rW1 : Resolver := { Cwd := ("/w").data, TestFiles := [("/w/pb.md").data] }

theorem C1_witness :
    rW1.ResolvePlaybook ("pb.md").data =
      .ok { OrigName := ("pb.md").data, CanonicalName := ("/w/pb.md").data,
            ResolvedFile := ("/w/pb.md").data } ∧
    rW1.ResolvePlaybook ("nope.md").data =
      .error (.notFound ("nope.md").data ("/w/nope.md").data) := by
  constructor
  · exact (C1_theorem rW1 (("pb.md").data) (by decide) (by decide)).1 (by decide)
  · exact (C1_theorem rW1 (("nope.md").data) (by decide) (by decide)).2 (by decide)

/-! ## Claim C10 -/

/-- Claim C10: `FullScriptName` always returns
`CanonicalName ++ "::" ++ Name` — also when the canonical name is `"^"` or
`"."`, since the special-case branch discards the prefix-concatenated
string it computes (missing `return`). -/
theorem C10_theorem (cdef : CommandDef) :
    cdef.FullScriptName = cdef.Playbook.CanonicalName ++ ("::").data ++ cdef.Name := by
  rfl

/-! ## Claim C8 -/

theorem processDirective_flag (c : CommandDef) (s : Str) (n : Nat) :
    (processDirective c s n).1.DirectivesProcessed = c.DirectivesProcessed := by
  unfold processDirective
  cases directiveReParse s with
  | none => rfl
  | some td =>
    obtain ⟨t, a⟩ := td
    by_cases h1 : t = ("require").data
    · simp only [if_pos h1]
      by_cases h2 : envVarReMatch (trimWS a) <;> simp [h2]
    · simp [h1]

theorem processDirective_noerr (c : CommandDef) (s : Str) (n : Nat) :
    (processDirective c s n).2 = none := by
  unfold processDirective
  cases directiveReParse s with
  | none => rfl
  | some td =>
    obtain ⟨t, a⟩ := td
    by_cases h1 : t = ("require").data
    · simp only [if_pos h1]
      by_cases h2 : envVarReMatch (trimWS a) <;> simp [h2]
    · simp [h1]

theorem v1Loop_flag (lines : List Str) : ∀ (c : CommandDef) (idx : Nat),
    (v1Loop c idx lines).1.DirectivesProcessed = c.DirectivesProcessed := by
  induction lines with
  | nil => intro c idx; rfl
  | cons line rest ih =>
    intro c idx
    rw [v1Loop]
    by_cases hp : strHasPre ("# @scripthaus ").data line
    · simp only [if_pos hp, processDirective_noerr]
      rw [ih, processDirective_flag]
    · simp only [if_neg hp]
      exact ih c (idx + 1)

theorem v1Loop_noerr (lines : List Str) : ∀ (c : CommandDef) (idx : Nat),
    (v1Loop c idx lines).2 = none := by
  induction lines with
  | nil => intro c idx; rfl
  | cons line rest ih =>
    intro c idx
    rw [v1Loop]
    by_cases hp : strHasPre ("# @scripthaus ").data line
    · simp only [if_pos hp, processDirective_noerr]
      exact ih _ (idx + 1)
    · simp only [if_neg hp]
      exact ih c (idx + 1)

theorem v2Dir_flag (hOpt : Option Str) (c : CommandDef) (d : RawDirective) :
    (v2Dir hOpt c d).DirectivesProcessed = c.DirectivesProcessed := by
  unfold v2Dir
  dsimp only
  split_ifs <;> try rfl
  all_goals
    cases hOpt with
    | none => rfl
    | some hd =>
      dsimp only
      split_ifs <;> rfl

theorem foldl_v2Dir_flag (h : Option Str) (dirs : List RawDirective) :
    ∀ c : CommandDef, (dirs.foldl (v2Dir h) c).DirectivesProcessed =
      c.DirectivesProcessed := by
  induction dirs with
  | nil => intro c; rfl
  | cons d rest ih =>
    intro c
    rw [List.foldl_cons, ih, v2Dir_flag]

theorem processDirectivesV1_flag (c : CommandDef) :
    (processDirectivesV1 c).1.DirectivesProcessed = true := by
  unfold processDirectivesV1
  by_cases hp : c.DirectivesProcessed
  · simp [hp]
  · simp only [if_neg hp]
    split_ifs with hl
    · rfl
    · rw [v1Loop_flag]

theorem processDirectivesV2_flag (h : Option Str) (c : CommandDef) :
    (processDirectivesV2 h c).1.DirectivesProcessed = true := by
  unfold processDirectivesV2
  by_cases hp : c.DirectivesProcessed
  · simp [hp]
  · simp only [if_neg hp]
    rw [foldl_v2Dir_flag]

/-- Claim C8: both revisions' `processDirectives` are idempotent — the
first call always returns success, and a second call is a no-op returning
success, leaving the whole record (in particular `RequireEnvVars`,
`ChangeDir`, `NoLog` and `Warnings`) exactly as after one call; the guard
is the `DirectivesProcessed` flag set by the first call. -/
theorem C8_theorem (cdef : CommandDef) (homeDir : Option Str) :
    processDirectivesV1 (processDirectivesV1 cdef).1 = ((processDirectivesV1 cdef).1, none) ∧
    (processDirectivesV1 cdef).2 = none ∧
    processDirectivesV2 homeDir (processDirectivesV2 homeDir cdef).1 =
      ((processDirectivesV2 homeDir cdef).1, none) ∧
    (processDirectivesV2 homeDir cdef).2 = none := by
  refine ⟨?_, ?_, ?_, ?_⟩
  · rw [processDirectivesV1, if_pos (processDirectivesV1_flag cdef)]
  · unfold processDirectivesV1
    dsimp only
    split_ifs <;> first | rfl | rw [v1Loop_noerr]
  · rw [processDirectivesV2, if_pos (processDirectivesV2_flag homeDir cdef)]
  · unfold processDirectivesV2
    dsimp only
    split_ifs <;> rfl

/-! ## Claim C3 -/

/-- Claim C3: a `require` directive whose (trimmed) argument matches the
identifier pattern appends it to `RequireEnvVars` and returns no error;
one whose argument does not match appends a warning instead, also with no
error — so the caller's directive loop continues either way. -/
theorem C3_theorem (cdef : CommandDef) (dirStr : Str) (lineNo : Nat) (args : Str)
    (hparse : directiveReParse dirStr = some (("require").data, args)) :
    (envVarReMatch (trimWS args) = true →
      processDirective cdef dirStr lineNo =
        ({ cdef with RequireEnvVars := cdef.RequireEnvVars ++ [trimWS args] }, none)) ∧
    (envVarReMatch (trimWS args) = false →
      processDirective cdef dirStr lineNo =
        ({ cdef with
            Warnings := cdef.Warnings ++ [requireInvalidMsg (trimWS args) lineNo] },
         none)) := by
  unfold processDirective
  rw [hparse]
  constructor <;> intro h <;> simp [h]

theorem C3_witness :
    processDirective { } ("require FOO").data 3 =
      ({ RequireEnvVars := [("FOO").data] }, none) ∧
    processDirective { } ("require 9X").data 4 =
      ({ Warnings := [requireInvalidMsg (("9X").data) 4] }, none) := by
  constructor
  · exact (C3_theorem { } (("require FOO").data) 3 (("FOO").data) (by decide)).1 (by decide)
  · exact (C3_theorem { } (("require 9X").data) 4 (("9X").data) (by decide)).2 (by decide)

/-! ## Claims C4, C2, C9 -/

theorem ParseCommands_append (pb : ResolvedPlaybook) (xs ys : List MdNode) :
    ParseCommands pb (xs ++ ys) =
      ((ParseCommands pb xs).1 ++ (ParseCommands pb ys).1,
       (ParseCommands pb xs).2 ++ (ParseCommands pb ys).2) := by
  induction xs with
  | nil => simp [ParseCommands]
  | cons n rest ih =>
    simp only [List.cons_append, ParseCommands, List.append_eq]
    rw [ih]
    simp [List.append_assoc]

/-- Claim C4, counterexample node: a well-formed `bash` command block
named `foo`. -/
def bC4 : MdNode :=
  .fenced { info := some ("bash").data,
            text := ("# @scripthaus command foo\necho hi").data, lineNo := 1 }

/-- Claim C4, counterexample: a document consisting of the same command
block twice yields two `CommandDef`s both named `foo` — `Name` is not
unique within one extraction pass. -/
theorem C4_counterexample :
    (ParseCommands { } [bC4, bC4]).1.map CommandDef.Name =
      [("foo").data, ("foo").data] ∧
    ¬ ((ParseCommands { } [bC4, bC4]).1.Pairwise (fun a b => ¬(a.Name = b.Name))) := by
  constructor
  · decide
  · decide

/-- Claim C4, amended: one extraction pass returns exactly the per-node
results concatenated in document order — no cross-block state filters or
deduplicates the command list, so a document that declares the same name
in two accepted blocks yields duplicate `Name`s (uniqueness is the
caller's concern). -/
theorem C4_theorem (pb : ResolvedPlaybook) (nodes : List MdNode) :
    ParseCommands pb nodes =
      ((nodes.map (fun n => (ParseCommands pb [n]).1)).join,
       (nodes.map (fun n => (ParseCommands pb [n]).2)).join) := by
  induction nodes with
  | nil => rfl
  | cons n rest ih =>
    have h := ParseCommands_append pb [n] rest
    rw [show n :: rest = [n] ++ rest from rfl, h, ih]
    simp [List.join]

/-- Claim C2: a command-carrying fenced block is accepted exactly when its
language tag is in the fixed allow-list; a block with a tag outside the
list produces the invalid-language warning and no `CommandDef`, and since
one pass is the concatenation of the per-node results, every other command
block of the document is still returned unchanged. -/
theorem C2_theorem :
    (∀ lang : Str, IsValidScriptType lang = true ↔
        lang ∈ [("sh").data, ("bash").data, ("zsh").data, ("tcsh").data, ("ksh").data,
          ("fish").data, ("python").data, ("python2").data, ("python3").data,
          ("js").data, ("node").data]) ∧
    (∀ (pb : ResolvedPlaybook) (pre post : List MdNode) (b : FencedBlock),
        ParseCommands pb (pre ++ .fenced b :: post) =
          ((ParseCommands pb pre).1 ++ (parseNode pb b).1 ++ (ParseCommands pb post).1,
           (ParseCommands pb pre).2 ++ (parseNode pb b).2 ++ (ParseCommands pb post).2)) ∧
    (∀ (pb : ResolvedPlaybook) (b : FencedBlock) (infoText : Str),
        b.info = some infoText →
        ¬((GetCommandDirective (ExtractRawDirectives b.text)).1 = []) →
        IsValidScriptType (parseInfo infoText).1 = false →
        parseNode pb b =
          ([], [invalidLanguageMsg infoText (parseInfo infoText).1 b.lineNo])) ∧
    (∀ (pb : ResolvedPlaybook) (b : FencedBlock) (infoText : Str),
        b.info = some infoText →
        ¬((GetCommandDirective (ExtractRawDirectives b.text)).1 = []) →
        IsValidScriptType (parseInfo infoText).1 = true →
        parseNode pb b =
          ([{ Playbook := pb,
              Name := (GetCommandDirective (ExtractRawDirectives b.text)).1,
              ShortText := (GetCommandDirective (ExtractRawDirectives b.text)).2,
              Lang := (parseInfo infoText).1, ScriptText := b.text,
              Info := (parseInfo infoText).2,
              RawDirectives := ExtractRawDirectives b.text }], [])) := by
  refine ⟨?_, ?_, ?_, ?_⟩
  · intro lang
    simp only [IsValidScriptType, List.mem_cons, List.not_mem_nil, or_false,
      decide_eq_true_eq]
  · intro pb pre post b
    rw [ParseCommands_append]
    simp only [ParseCommands, List.append_assoc]
  · intro pb b infoText hinfo hname hlang
    rw [parseNode, hinfo]
    simp only [if_neg hname, hlang]
    rfl
  · intro pb b infoText hinfo hname hlang
    rw [parseNode, hinfo]
    simp only [if_neg hname, hlang]
    rfl

def bC2bad : FencedBlock :=
  { info := some ("brainfuck").data,
    text := ("# @scripthaus command foo\nx").data, lineNo := 5 }

def bC2good : FencedBlock :=
  { info := some ("bash").data,
    text := ("# @scripthaus command foo\nx").data, lineNo := 5 }

theorem C2_witness :
    parseNode { } bC2bad =
      ([], [invalidLanguageMsg ("brainfuck").data ("brainfuck").data 5]) ∧
    parseNode { } bC2good =
      ([{ Playbook := { }, Name := ("foo").data, Lang := ("bash").data,
          ScriptText := ("# @scripthaus command foo\nx").data,
          RawDirectives := [⟨("command").data, ("foo").data, 1⟩] }], []) := by
  constructor
  · exact C2_theorem.2.2.1 { } bC2bad (("brainfuck").data) rfl (by decide) (by decide)
  · exact C2_theorem.2.2.2 { } bC2good (("bash").data) rfl (by decide) (by decide)

theorem GetCommandDirective_empty_data (d : RawDirective) (post : List RawDirective)
    (hd : d.«Type» = ("command").data) (hdata : d.Data = []) :
    ∀ pre, (∀ x ∈ pre, ¬(x.«Type» = ("command").data)) →
      GetCommandDirective (pre ++ d :: post) = ([], []) := by
  intro pre
  induction pre with
  | nil =>
    intro _
    rw [List.nil_append, GetCommandDirective]
    simp [hd, hdata, GetCommandDirective]
  | cons x xs ih =>
    intro hpre
    rw [List.cons_append, GetCommandDirective]
    rw [if_pos (hpre x (List.mem_cons_self x xs))]
    exact ih (fun y hy => hpre y (List.mem_cons_of_mem x hy))

/-- Claim C9: when the first `command` directive of a block has empty data
(`# @scripthaus command` with no name), `GetCommandDirective` returns
`("", "")` without consulting any later `command` directive, and the block
is treated as not a ScriptHaus command: no `CommandDef`, and the
"has scripthaus directives, but no 'command' directive" warning is emitted
although a command directive is present. -/
theorem C9_theorem :
    (∀ (pre : List RawDirective) (d : RawDirective) (post : List RawDirective),
        (∀ x ∈ pre, ¬(x.«Type» = ("command").data)) →
        d.«Type» = ("command").data → d.Data = [] →
        GetCommandDirective (pre ++ d :: post) = ([], [])) ∧
    (∀ (pb : ResolvedPlaybook) (b : FencedBlock) (infoText : Str)
        (pre : List RawDirective) (d : RawDirective) (post : List RawDirective),
        b.info = some infoText →
        ExtractRawDirectives b.text = pre ++ d :: post →
        (∀ x ∈ pre, ¬(x.«Type» = ("command").data)) →
        d.«Type» = ("command").data → d.Data = [] →
        parseNode pb b = ([], [noCommandDirectiveMsg b.lineNo])) := by
  constructor
  · intro pre d post hpre hd hdata
    exact GetCommandDirective_empty_data d post hd hdata pre hpre
  · intro pb b infoText pre d post hinfo hext hpre hd hdata
    rw [parseNode, hinfo, hext]
    dsimp only
    rw [GetCommandDirective_empty_data d post hd hdata pre hpre]
    simp

def bC9 : FencedBlock :=
  { info := some ("bash").data,
    text := ("# @scripthaus command\n# @scripthaus command real\necho").data,
    lineNo := 2 }

theorem C9_witness :
    GetCommandDirective
      [⟨("command").data, [], 1⟩, ⟨("command").data, ("real").data, 2⟩] = ([], []) ∧
    parseNode { } bC9 = ([], [noCommandDirectiveMsg 2]) := by
  constructor
  · exact C9_theorem.1 [] ⟨("command").data, [], 1⟩
      [⟨("command").data, ("real").data, 2⟩] (by simp) rfl rfl
  · exact C9_theorem.2 { } bC9 (("bash").data) []
      ⟨("command").data, [], 1⟩ [⟨("command").data, ("real").data, 2⟩]
      rfl (by decide) (by simp) rfl rfl

/-! ## Claim C5

The spec-side grammar of a directive line, written from the claim's words
(a refinement comparison target for the operational scanner above): a
comment marker, whitespace, the literal `@scripthaus`, whitespace, and a
directive type token starting with a non-whitespace character, with an
arbitrary remainder.  `ClaimPattern` adds the claim's "after stripping the
line's leading whitespace". -/

/-- Every character of the run is RE2 whitespace. -/
def AllWS (w : Str) : Prop := ∀ c ∈ w, isWsGo c = true

instance (w : Str) : Decidable (AllWS w) := List.decidableBAll _ w

/-- The recognition grammar of the claim, without leading whitespace. -/
def CorePattern (l : Str) : Prop :=
  ∃ (marker w1 w2 : Str) (c : Char) (rest : Str),
    (marker = ['#'] ∨ marker = ['/', '/']) ∧
    ¬(w1 = []) ∧ AllWS w1 ∧ ¬(w2 = []) ∧ AllWS w2 ∧ isWsGo c = false ∧
    l = marker ++ (w1 ++ (("@scripthaus").data ++ (w2 ++ c :: rest)))

/-- The claim's recognition condition: the grammar holds after stripping
the line's leading whitespace. -/
def ClaimPattern (l : Str) : Prop := CorePattern (l.dropWhile isWsGo)

theorem stripLit_some (p : Str) : ∀ s t, stripLit p s = some t ↔ s = p ++ t := by
  induction p with
  | nil =>
    intro s t
    simp [stripLit]
  | cons c cs ih =>
    intro s t
    cases s with
    | nil => simp [stripLit]
    | cons x xs =>
      rw [stripLit]
      by_cases hx : x = c
      · rw [if_pos hx, ih]
        subst hx
        simp
      · rw [if_neg hx]
        simp only [List.cons_append, List.cons.injEq]
        constructor
        · intro h
          simp at h
        · intro h
          exact absurd h.1 hx

theorem dropWhile_allws_append (w t : Str) (hw : AllWS w) :
    (w ++ t).dropWhile isWsGo = t.dropWhile isWsGo := by
  induction w with
  | nil => rfl
  | cons a as ih =>
    rw [List.cons_append, List.dropWhile_cons,
      if_pos (hw a (List.mem_cons_self a as))]
    exact ih (fun c hc => hw c (List.mem_cons_of_mem a hc))

theorem dropWhile_head_false (l : Str) :
    ∀ c r, l.dropWhile isWsGo = c :: r → isWsGo c = false := by
  induction l with
  | nil =>
    intro c r h
    simp [List.dropWhile] at h
  | cons a as ih =>
    intro c r h
    rw [List.dropWhile_cons] at h
    by_cases ha : isWsGo a
    · rw [if_pos ha] at h
      exact ih c r h
    · rw [if_neg ha] at h
      cases h
      simpa using ha

theorem reqWS_some (l t : Str) (h : reqWS l = some t) :
    ∃ w, l = w ++ t ∧ ¬(w = []) ∧ AllWS w ∧
      (t = [] ∨ ∃ c r, t = c :: r ∧ isWsGo c = false) := by
  cases l with
  | nil => simp [reqWS] at h
  | cons a as =>
    rw [reqWS] at h
    by_cases ha : isWsGo a
    · rw [if_pos ha] at h
      obtain rfl : (a :: as).dropWhile isWsGo = t := Option.some.inj h
      refine ⟨(a :: as).takeWhile isWsGo, ?_, ?_, ?_, ?_⟩
      · rw [List.takeWhile_append_dropWhile]
      · rw [List.takeWhile_cons, if_pos ha]
        simp
      · intro c hc
        exact List.mem_takeWhile_imp hc
      · cases hd : (a :: as).dropWhile isWsGo with
        | nil => exact Or.inl rfl
        | cons c r => exact Or.inr ⟨c, r, rfl, dropWhile_head_false _ c r hd⟩
    · rw [if_neg ha] at h
      exact absurd h (by simp)

theorem reqWS_append (w t : Str) (hw : ¬(w = [])) (haw : AllWS w)
    (ht : t = [] ∨ ∃ c r, t = c :: r ∧ isWsGo c = false) :
    reqWS (w ++ t) = some t := by
  cases w with
  | nil => exact absurd rfl hw
  | cons a as =>
    rw [List.cons_append, reqWS,
      if_pos (haw a (List.mem_cons_self a as))]
    rw [show (a :: (as ++ t)).dropWhile isWsGo = ((a :: as) ++ t).dropWhile isWsGo from rfl]
    rw [dropWhile_allws_append _ _ haw]
    rcases ht with rfl | ⟨c, r, rfl, hc⟩
    · rfl
    · rw [List.dropWhile_cons, if_neg (by simp [hc])]

theorem stripComment_some (l r : Str) (h : stripComment l = some r) :
    l = '#' :: r ∨ l = '/' :: '/' :: r := by
  cases l with
  | nil => simp [stripComment] at h
  | cons c cs =>
    rw [stripComment.eq_def] at h
    dsimp only at h
    by_cases hc : c = '#'
    · rw [if_pos hc] at h
      subst hc
      exact Or.inl (by rw [Option.some.inj h])
    · rw [if_neg hc] at h
      by_cases hs : c = '/'
      · rw [if_pos hs] at h
        subst hs
        cases cs with
        | nil => simp at h
        | cons c2 cs2 =>
          dsimp only at h
          by_cases h2 : c2 = '/'
          · rw [if_pos h2] at h
            subst h2
            exact Or.inr (by rw [Option.some.inj h])
          · rw [if_neg h2] at h
            simp at h
      · rw [if_neg hs] at h
        simp at h

theorem takeWhile_ne_nil_head (l : Str) (h : ¬(l.takeWhile (fun c => !isWsGo c) = [])) :
    ∃ c r, l = c :: r ∧ isWsGo c = false := by
  cases l with
  | nil => simp [List.takeWhile] at h
  | cons c r =>
    refine ⟨c, r, rfl, ?_⟩
    rw [List.takeWhile_cons] at h
    by_cases hc : isWsGo c
    · rw [if_neg (by simp [hc])] at h
      exact absurd rfl h
    · simpa using hc

/-- The operational scanner recognizes a line exactly when the claim's
grammar matches it with no leading whitespace allowed. -/
theorem matchDirectiveLine_isSome_iff (l : Str) :
    (matchDirectiveLine l).isSome = true ↔ CorePattern l := by
  constructor
  · intro h
    rw [matchDirectiveLine] at h
    cases hs : stripComment l with
    | none => simp [hs] at h
    | some r1 =>
      cases hw1 : reqWS r1 with
      | none => simp [hs, hw1] at h
      | some r2 =>
        cases hlit : stripLit (("@scripthaus").data) r2 with
        | none => simp [hs, hw1, hlit] at h
        | some r3 =>
          cases hw2 : reqWS r3 with
          | none => simp [hs, hw1, hlit, hw2] at h
          | some r4 =>
            simp only [hs, hw1, hlit, hw2, Option.some_bind] at h
            by_cases htyp : r4.takeWhile (fun c => !isWsGo c) = []
            · rw [if_pos htyp] at h
              simp at h
            · obtain ⟨c, rest, rfl, hc⟩ := takeWhile_ne_nil_head r4 htyp
              obtain ⟨w1, rfl, hw1ne, hw1ws, _⟩ := reqWS_some r1 r2 hw1
              obtain rfl : r2 = ("@scripthaus").data ++ r3 := (stripLit_some _ r2 r3).mp hlit
              obtain ⟨w2, rfl, hw2ne, hw2ws, _⟩ := reqWS_some r3 _ hw2
              rcases stripComment_some l _ hs with rfl | rfl
              · exact ⟨['#'], w1, w2, c, rest, Or.inl rfl, hw1ne, hw1ws, hw2ne, hw2ws,
                  hc, rfl⟩
              · exact ⟨['/', '/'], w1, w2, c, rest, Or.inr rfl, hw1ne, hw1ws, hw2ne,
                  hw2ws, hc, rfl⟩
  · rintro ⟨marker, w1, w2, c, rest, hm, hw1ne, hw1ws, hw2ne, hw2ws, hc, rfl⟩
    have hsc : stripComment (marker ++ (w1 ++ (("@scripthaus").data ++ (w2 ++ c :: rest)))) =
        some (w1 ++ (("@scripthaus").data ++ (w2 ++ c :: rest))) := by
      rcases hm with rfl | rfl
      · rfl
      · rfl
    have hr1 : reqWS (w1 ++ (("@scripthaus").data ++ (w2 ++ c :: rest))) =
        some (("@scripthaus").data ++ (w2 ++ c :: rest)) :=
      reqWS_append _ _ hw1ne hw1ws (Or.inr ⟨'@', _, rfl, by decide⟩)
    have hr3 : stripLit (("@scripthaus").data) (("@scripthaus").data ++ (w2 ++ c :: rest)) =
        some (w2 ++ c :: rest) := (stripLit_some _ _ _).mpr rfl
    have hr4 : reqWS (w2 ++ c :: rest) = some (c :: rest) :=
      reqWS_append _ _ hw2ne hw2ws (Or.inr ⟨c, rest, rfl, hc⟩)
    rw [matchDirectiveLine]
    simp only [hsc, hr1, hr3, hr4, Option.some_bind]
    have hne : ¬(List.takeWhile (fun c => !isWsGo c) (c :: rest) = []) := by
      rw [List.takeWhile_cons, if_pos (by simp [hc])]
      simp
    simp [hne]

theorem extractLoop_mem (lines : List Str) : ∀ (k : Nat) (d : RawDirective),
    d ∈ extractLoop k lines ↔
      ∃ j line td, lines.get? j = some line ∧ matchDirectiveLine line = some td ∧
        d = ⟨td.1, trimWS td.2, k + j + 1⟩ := by
  induction lines with
  | nil =>
    intro k d
    simp [extractLoop]
  | cons line rest ih =>
    intro k d
    rw [extractLoop]
    cases hm : matchDirectiveLine line with
    | none =>
      rw [ih]
      constructor
      · rintro ⟨j, l', td, hj, hmt, hd⟩
        refine ⟨j + 1, l', td, by rw [List.get?_cons_succ]; exact hj, hmt, ?_⟩
        rw [hd]
        simp only [RawDirective.mk.injEq]
        refine ⟨by trivial, by trivial, by omega⟩
      · rintro ⟨j, l', td, hj, hmt, hd⟩
        cases j with
        | zero =>
          rw [List.get?_cons_zero] at hj
          obtain rfl := Option.some.inj hj
          rw [hm] at hmt
          exact absurd hmt (by simp)
        | succ j' =>
          rw [List.get?_cons_succ] at hj
          refine ⟨j', l', td, hj, hmt, ?_⟩
          rw [hd]
          simp only [RawDirective.mk.injEq]
          refine ⟨by trivial, by trivial, by omega⟩
    | some td0 =>
      constructor
      · intro hmem
        rcases List.mem_cons.mp hmem with rfl | hmem'
        · exact ⟨0, line, td0, rfl, hm, rfl⟩
        · obtain ⟨j, l', td, hj, hmt, hd⟩ := (ih (k + 1) d).mp hmem'
          refine ⟨j + 1, l', td, by rw [List.get?_cons_succ]; exact hj, hmt, ?_⟩
          rw [hd]
          simp only [RawDirective.mk.injEq]
          refine ⟨by trivial, by trivial, by omega⟩
      · rintro ⟨j, l', td, hj, hmt, hd⟩
        cases j with
        | zero =>
          rw [List.get?_cons_zero] at hj
          obtain rfl := Option.some.inj hj
          rw [hm] at hmt
          obtain rfl := Option.some.inj hmt
          rw [hd]
          exact List.mem_cons_self _ _
        | succ j' =>
          rw [List.get?_cons_succ] at hj
          apply List.mem_cons_of_mem
          rw [ih (k + 1) d]
          refine ⟨j', l', td, hj, hmt, ?_⟩
          rw [hd]
          simp only [RawDirective.mk.injEq]
          refine ⟨by trivial, by trivial, by omega⟩

/-- Claim C5, amended: the directive scanner recognizes a line exactly
when the line begins directly (no leading whitespace) with a line-comment
marker (`#` or `//`), whitespace, the literal `@scripthaus`, whitespace
and a directive type token (an optional remainder may follow); at the text
level, `ExtractRawDirectives` emits a directive for 1-indexed line `i + 1`
exactly when line `i` matches that pattern. -/
theorem C5_theorem :
    (∀ l : Str, (matchDirectiveLine l).isSome = true ↔ CorePattern l) ∧
    (∀ (text : Str) (i : Nat) (line : Str),
        (splitOnChar '\n' text).get? i = some line →
        ((∃ d ∈ ExtractRawDirectives text, d.LineNo = i + 1) ↔ CorePattern line)) := by
  constructor
  · exact matchDirectiveLine_isSome_iff
  · intro text i line hline
    constructor
    · rintro ⟨d, hd, hno⟩
      obtain ⟨j, l', td, hj, hmt, hdd⟩ :=
        (extractLoop_mem (splitOnChar '\n' text) 0 d).mp hd
      have hji : j = i := by
        rw [hdd] at hno
        simpa using hno
      subst hji
      rw [hline] at hj
      obtain rfl := Option.some.inj hj
      rw [← matchDirectiveLine_isSome_iff, hmt]
      rfl
    · intro hpat
      obtain ⟨td, htd⟩ : ∃ td, matchDirectiveLine line = some td := by
        have := (matchDirectiveLine_isSome_iff line).mpr hpat
        cases hmt : matchDirectiveLine line with
        | none => rw [hmt] at this; simp at this
        | some td => exact ⟨td, rfl⟩
      refine ⟨⟨td.1, trimWS td.2, i + 1⟩, ?_, rfl⟩
      exact (extractLoop_mem (splitOnChar '\n' text) 0 _).mpr
        ⟨i, line, td, hline, htd, by simp⟩

/-- Claim C5, counterexample: the line `" # @scripthaus command foo"`
matches the claim's pattern once its leading whitespace is stripped, yet
the scanner recognizes no directive in it — the regexp is anchored at the
line start with no allowance for leading whitespace. -/
theorem C5_counterexample :
    ExtractRawDirectives ((" # @scripthaus command foo").data) = [] ∧
    ClaimPattern ((" # @scripthaus command foo").data) := by
  constructor
  · decide
  · refine ⟨['#'], [' '], [' '], 'c', ("ommand foo").data,
      Or.inl rfl, by decide, by decide, by decide, by decide, by decide, by decide⟩

theorem C5_witness :
    ∃ d ∈ ExtractRawDirectives (("# @scripthaus command foo").data), d.LineNo = 1 := by
  refine (C5_theorem.2 (("# @scripthaus command foo").data) 0
    (("# @scripthaus command foo").data) (by decide)).mpr ?_
  exact ⟨['#'], [' '], [' '], 'c', ("ommand foo").data,
    Or.inl rfl, by decide, by decide, by decide, by decide, by decide, by decide⟩
